import Mathlib

/-!
Shallow embedding of `docs/exts/operators_and_hooks_ref.py`: the metadata
indexing / aggregation pipeline that renders provider reference tables.

Python dicts with string keys are embedded as association lists with
insert-overwrite semantics (`dictInsert` keeps the original position of an
overwritten key, as CPython dicts do).  Python exceptions are embedded as
`Except PyError`.  Record dictionaries loaded from YAML are embedded as
structures whose fields are the keys this script reads; a key accessed via
`.get`/`in` with a possible absence is an `Option` field.
-/

set_option maxRecDepth 10000

/-- Exceptions raised by the script: `KeyError` from dict lookups,
the generic `Exception` with a format message raised by `_docs_path`,
and `ValueError` from tuple unpacking. -/
inductive PyError where
  | keyError : String → PyError
  | formatError : String → PyError
  | valueError : String → PyError
deriving DecidableEq

/-- One element of a provider's resource list (an entry of `integrations`,
`operators` or `hooks` in a provider YAML record).  The script reads the
`integration-name` key directly, reads `tags` either directly or via
`.get("tags", set())`, and tests `"how-to-guide" in record`. -/
structure Resource where
  integrationName : String
  tags : Option (List String) := none
  howToGuide : Option (List String) := none
deriving DecidableEq

/-- An entry of a resource index: `{**integration, "package-name": provider["package-name"]}`.
The two synthetic placeholder records `{"integration-name": "SQL"}` /
`{"integration-name": "Local"}` inserted by `_prepare_transfer_data` carry
no `package-name` key, hence the `Option`. -/
structure IndexedResource where
  resource : Resource
  packageName : Option String := none
deriving DecidableEq

/-- A `transfers` list entry of a provider record. -/
structure Transfer where
  sourceIntegrationName : String
  targetIntegrationName : String
  howToGuide : Option String := none
deriving DecidableEq

/-- A provider package record as loaded by `load_package_data`, restricted to
the keys this script reads.  `provider.get(resource_type, [])` means a missing
list is the empty list. -/
structure Provider where
  packageName : String
  name : String
  integrations : List Resource := []
  operators : List Resource := []
  hooks : List Resource := []
  transfers : List Transfer := []
  logging : List String := []
  authBackends : List String := []
  secretsBackends : List String := []
  connectionTypes : List String := []
  extraLinks : List String := []
deriving DecidableEq

/-- A transfer record enriched by `_prepare_transfer_data`:
`{**transfer, "package-name": ..., "source-integration": ..., "target-integration": ...}`. -/
structure ResolvedTransfer where
  transfer : Transfer
  packageName : String
  sourceIntegration : IndexedResource
  targetIntegration : IndexedResource
deriving DecidableEq

/-- An item of the operators/hooks view: the keys `"integration"`,
`"operators"`, `"hooks"` of the dict built per displayed integration;
an `Option` field being `none` embeds the key being absent. -/
structure OperatorItem where
  integration : IndexedResource
  operators : Option IndexedResource := none
  hooks : Option IndexedResource := none
deriving DecidableEq

/-- A value of one of the simple per-category aggregations:
`{"name": provider["name"], <category>: <list>}`. -/
structure CategoryEntry where
  name : String
  items : List String
deriving DecidableEq

/-- Python-dict insertion: overwriting an existing key keeps its position,
a new key is appended (CPython insertion-order semantics). -/
def dictInsert {α : Type} (k : String) (v : α) : List (String × α) → List (String × α)
  | [] => [(k, v)]
  | kv :: rest => if kv.1 = k then (k, v) :: rest else kv :: dictInsert k v rest

/-- Python-dict lookup `d[k]` / `d.get(k)` as an `Option`. -/
def dictGet {α : Type} (k : String) (d : List (String × α)) : Option α :=
  (d.find? (fun kv => kv.1 = k)).map (fun kv => kv.2)

/-- Python `d.values()` in insertion order. -/
def dictValues {α : Type} (d : List (String × α)) : List α :=
  d.map (fun kv => kv.2)

/-- The declared integration name of an indexed resource record. -/
def integrationKey (i : IndexedResource) : String :=
  i.resource.integrationName

/-- Embedding of Python `s.split(sep, maxsplit=n)` on a character list
(for a one-character separator): at most `n` splits, remainder kept whole. -/
def splitLimit (sep : Char) : Nat → List Char → List (List Char)
  | _, [] => [[]]
  | 0, s => [s]
  | n + 1, c :: rest =>
    if c = sep then
      [] :: splitLimit sep n rest
    else
      match splitLimit sep (n + 1) rest with
      | [] => [[c]]
      | seg :: segs => (c :: seg) :: segs

/-- Python `s.startswith(p)`: Python strings are sequences of code points,
so this is a character-list prefix test. -/
def pyStartsWith (s p : String) : Bool :=
  p.data.isPrefixOf s.data

/-- Python `s.endswith(p)` as a character-list suffix test. -/
def pyEndsWith (s p : String) : Bool :=
  p.data.isSuffixOf s.data

/-- Python `s[n:]` (for a non-negative `n`). -/
def pyDrop (s : String) (n : Nat) : String :=
  String.mk (s.data.drop n)

/-- Python `s[:-n]` (for a positive `n`; shorter strings give `""`). -/
def pyDropRight (s : String) (n : Nat) : String :=
  String.mk (s.data.take (s.data.length - n))

/-- Python `s.lower()` (ASCII case mapping). -/
def pyLower (s : String) : String :=
  String.mk (s.data.map Char.toLower)

/-- The message of the exception `_docs_path` raises on a path that does not
start with `/docs/`. -/
def docsPathBadStartMsg (filepath : String) : String :=
  "The path must starts with \x27/docs/\x27. Current value: " ++ filepath

/-- The message of the exception `_docs_path` raises on a path that does not
end with `.rst`. -/
def docsPathBadEndMsg (filepath : String) : String :=
  "The path must ends with \x27.rst\x27. Current value: " ++ filepath

/-- Embedding of `_docs_path`.  The non-provider branch
`os.path.relpath(os.path.join(ROOT_DIR, filepath.lstrip("/")), DOCS_DIR)`
is embedded, under the fixed layout `DOCS_DIR = ROOT_DIR + "/docs"` and for
inputs without `..`/duplicate-separator segments, as removal of the
6-character `/docs/` root marker.  The provider branch unpacks
`filepath.split("/", maxsplit=3)` into four parts (a `ValueError` when there
are fewer).  Both branches then strip the final `.rst` (4 characters). -/
def docs_path (filepath : String) : Except PyError String :=
  if ¬ pyStartsWith filepath "/docs/" then
    .error (.formatError (docsPathBadStartMsg filepath))
  else if ¬ pyEndsWith filepath ".rst" then
    .error (.formatError (docsPathBadEndMsg filepath))
  else
    match
      (if pyStartsWith filepath "/docs/apache-airflow-providers-" then
        match splitLimit '/' 3 filepath.data with
        | [_, _, provider, rest] =>
          Except.ok (String.mk provider ++ ":" ++ String.mk rest)
        | _ => Except.error (.valueError "not enough values to unpack")
      else
        Except.ok (pyDrop filepath 6) : Except PyError String)
    with
    | .error e => .error e
    | .ok s => .ok (pyDropRight s 4)

/-- Embedding of `_prepare_resource_index(package_data, resource_type)`: the
dict comprehension iterates providers in load order, then that provider's
resource list, inserting `integration-name ↦ {**integration, "package-name": ...}`;
a later insertion under the same name silently overwrites. -/
def prepare_resource_index (pd : List Provider) (get : Provider → List Resource) :
    List (String × IndexedResource) :=
  pd.foldl
    (fun d p =>
      (get p).foldl
        (fun d i =>
          dictInsert i.integrationName { resource := i, packageName := some p.packageName } d)
        d)
    []

/-- All `(record, owning package)` pairs of one resource category, flattened
in iteration (load) order — the sequence of insertions the index performs. -/
def resourceEntries (pd : List Provider) (get : Provider → List Resource) :
    List IndexedResource :=
  pd.flatMap (fun p =>
    (get p).map (fun i => { resource := i, packageName := some p.packageName }))

/-- The `all_operators_by_integration` index of `_prepare_operators_data`. -/
def allOperatorsByIntegration (pd : List Provider) : List (String × IndexedResource) :=
  prepare_resource_index pd (fun p => p.operators)

/-- The `all_hooks_by_integration` index of `_prepare_operators_data`. -/
def allHooksByIntegration (pd : List Provider) : List (String × IndexedResource) :=
  prepare_resource_index pd (fun p => p.hooks)

/-- The `all_sensors_by_integration` index of `_prepare_operators_data`,
built — as in the source — from the `"hooks"` resource category. -/
def allSensorsByIntegration (pd : List Provider) : List (String × IndexedResource) :=
  prepare_resource_index pd (fun p => p.hooks)

/-- The `all_integrations` index of `_prepare_operators_data`. -/
def allIntegrationsIndex (pd : List Provider) : List (String × IndexedResource) :=
  prepare_resource_index pd (fun p => p.integrations)

/-- Whether `tags.intersection(ts)` is non-empty (Python set-intersection
truthiness). -/
def tagsIntersect (tags : List String) (ts : List String) : Bool :=
  ts.any (fun t => tags.contains t)

/-- The filtering list comprehension of `_prepare_operators_data`:
`[i for i in all_integrations.values() if tags.intersection(i["tags"])]`.
Accessing `i["tags"]` on a record without the key raises `KeyError`. -/
def filterByTags (tags : List String) :
    List IndexedResource → Except PyError (List IndexedResource)
  | [] => .ok []
  | i :: rest => do
    let keep ←
      match i.resource.tags with
      | none => Except.error (PyError.keyError "tags")
      | some ts => Except.ok (tagsIntersect tags ts)
    let rest' ← filterByTags tags rest
    .ok (if keep then i :: rest' else rest')

/-- Elementwise `_docs_path` over a how-to-guide list
(`[_docs_path(d) for d in guides]`); the first failure propagates. -/
def docsPathList : List String → Except PyError (List String)
  | [] => .ok []
  | p :: rest => do
    let p' ← docs_path p
    let rest' ← docsPathList rest
    .ok (p' :: rest')

/-- The in-place rewrite
`item["integration"]["how-to-guide"] = [_docs_path(d) for d in ...]`,
performed only when the key is present. -/
def rewriteIntegrationGuides (i : IndexedResource) : Except PyError IndexedResource :=
  match i.resource.howToGuide with
  | none => .ok i
  | some gs => do
    let gs' ← docsPathList gs
    .ok { i with resource := { i.resource with howToGuide := some gs' } }

/-- Assembly of one item dict of `_prepare_operators_data`: keys are set
only from truthy lookups, and both the sensor write and the hook write
target the `"hooks"` key (the hook write last). -/
def buildOperatorItem (integration' : IndexedResource)
    (operators sensors hooks : Option IndexedResource) : OperatorItem :=
  let item0 : OperatorItem := { integration := integration' }
  let item1 := if operators.isSome then { item0 with operators := operators } else item0
  let item2 := if sensors.isSome then { item1 with hooks := sensors } else item1
  if hooks.isSome then { item2 with hooks := hooks } else item2

/-- The per-integration loop of `_prepare_operators_data`: look the
integration up in the operator, sensor and hook indexes, normalize its
how-to-guide paths, assemble the item, and keep it only when some lookup
was truthy. -/
def buildOperatorItems (ops hks sens : List (String × IndexedResource)) :
    List IndexedResource → Except PyError (List OperatorItem)
  | [] => .ok []
  | integration :: rest => do
    let operators := dictGet (integrationKey integration) ops
    let sensors := dictGet (integrationKey integration) sens
    let hooks := dictGet (integrationKey integration) hks
    let integration' ← rewriteIntegrationGuides integration
    let rest' ← buildOperatorItems ops hks sens rest
    .ok (if operators.isSome || sensors.isSome || hooks.isSome then
      buildOperatorItem integration' operators sensors hooks :: rest'
    else rest')

/-- The sort key of `_prepare_operators_data`:
`d["integration"]["integration-name"].lower()`, compared with the string
order (code-point lexicographic, as in Python). -/
def operatorItemLe (a b : OperatorItem) : Bool :=
  decide (pyLower (integrationKey a.integration) ≤ pyLower (integrationKey b.integration))

/-- Stable insertion of an element behind every already-placed element that
compares `le` to it. -/
def pyInsert {α : Type} (le : α → α → Bool) (x : α) : List α → List α
  | [] => [x]
  | y :: ys => if le y x then y :: pyInsert le x ys else x :: y :: ys

/-- Python `sorted(l, key=...)`: the stable ascending sort.  A stable
non-decreasing sort has a unique output for a total preorder, so this
structurally recursive stable insertion sort is extensionally the sort
Python performs. -/
def pySorted {α : Type} (le : α → α → Bool) : List α → List α
  | [] => []
  | x :: xs => pyInsert le x (pySorted le xs)

/-- Embedding of `_prepare_operators_data(tags)`, parameterized by the loaded
provider records (`load_package_data()` reads them from disk).  A `None` tag
filter displays every indexed integration; sorting is the stable sort used
by Python's `sorted`. -/
def prepare_operators_data (pd : List Provider) (tags : Option (List String)) :
    Except PyError (List OperatorItem) := do
  let toDisplay ←
    match tags with
    | none => Except.ok (dictValues (allIntegrationsIndex pd))
    | some fs => filterByTags fs (dictValues (allIntegrationsIndex pd))
  let results ← buildOperatorItems (allOperatorsByIntegration pd)
    (allHooksByIntegration pd) (allSensorsByIntegration pd) toDisplay
  .ok (pySorted operatorItemLe results)

/-- The placeholder record `{"integration-name": name}` inserted for the
`"SQL"` and `"Local"` edge cases. -/
def placeholderIntegration (name : String) : IndexedResource :=
  { resource := { integrationName := name } }

/-- The integration index of `_prepare_transfer_data` after the edge-case
loop: the `"integrations"` resource index with bare placeholder records
inserted for `"SQL"` and then `"Local"` (overwriting any real record of
that name). -/
def transferIntegrationIndex (pd : List Provider) : List (String × IndexedResource) :=
  ["SQL", "Local"].foldl
    (fun d name => dictInsert name (placeholderIntegration name) d)
    (prepare_resource_index pd (fun p => p.integrations))

/-- Resolution of one provider's transfer list against the integration
index: each record becomes `{**transfer, "package-name": ...,
"source-integration": index[src], "target-integration": index[tgt]}`;
a missing name raises `KeyError` (source looked up before target). -/
def resolveProviderTransfers (idx : List (String × IndexedResource)) (p : Provider) :
    List Transfer → Except PyError (List ResolvedTransfer)
  | [] => .ok []
  | t :: ts => do
    let src ←
      match dictGet t.sourceIntegrationName idx with
      | some v => Except.ok v
      | none => Except.error (PyError.keyError t.sourceIntegrationName)
    let tgt ←
      match dictGet t.targetIntegrationName idx with
      | some v => Except.ok v
      | none => Except.error (PyError.keyError t.targetIntegrationName)
    let rest' ← resolveProviderTransfers idx p ts
    .ok ({ transfer := t, packageName := p.packageName,
           sourceIntegration := src, targetIntegration := tgt } :: rest')

/-- The `all_transfers` comprehension: providers in load order, each
provider's transfers resolved in order. -/
def resolveTransfers (idx : List (String × IndexedResource)) :
    List Provider → Except PyError (List ResolvedTransfer)
  | [] => .ok []
  | p :: rest => do
    let head ← resolveProviderTransfers idx p p.transfers
    let rest' ← resolveTransfers idx rest
    .ok (head ++ rest')

/-- The transfer tag filter: keep a transfer when the filter intersects
`source["tags"]` or `target["tags"]`, each read with `.get("tags", set())`. -/
def transferMatchesTags (fs : List String) (t : ResolvedTransfer) : Bool :=
  tagsIntersect fs (t.sourceIntegration.resource.tags.getD []) ||
    tagsIntersect fs (t.targetIntegration.resource.tags.getD [])

/-- One iteration of the final loop of `_prepare_transfer_data`: a transfer
carrying a `how-to-guide` key gets it rewritten through `_docs_path`,
others pass through (`continue`). -/
def rewriteTransferGuide (t : ResolvedTransfer) : Except PyError ResolvedTransfer :=
  match t.transfer.howToGuide with
  | none => .ok t
  | some g => do
    let g' ← docs_path g
    .ok { t with transfer := { t.transfer with howToGuide := some g' } }

/-- The final loop of `_prepare_transfer_data` over the displayed transfers. -/
def rewriteTransferGuides : List ResolvedTransfer → Except PyError (List ResolvedTransfer)
  | [] => .ok []
  | t :: rest => do
    let t' ← rewriteTransferGuide t
    let rest' ← rewriteTransferGuides rest
    .ok (t' :: rest')

/-- Embedding of `_prepare_transfer_data(tags)`, parameterized by the loaded
provider records. -/
def prepare_transfer_data (pd : List Provider) (tags : Option (List String)) :
    Except PyError (List ResolvedTransfer) := do
  let allTransfers ← resolveTransfers (transferIntegrationIndex pd) pd
  let toDisplay :=
    match tags with
    | none => allTransfers
    | some fs => allTransfers.filter (transferMatchesTags fs)
  rewriteTransferGuides toDisplay

/-- Embedding of `_prepare_logging_data`: providers with a truthy `logging`
list contribute `package-name ↦ {"name": ..., "handlers": ...}`. -/
def prepare_logging_data (pd : List Provider) : List (String × CategoryEntry) :=
  pd.foldl
    (fun acc p =>
      if p.logging.isEmpty then acc
      else dictInsert p.packageName { name := p.name, items := p.logging } acc)
    []

/-- Embedding of `_prepare_auth_backend_data`. -/
def prepare_auth_backend_data (pd : List Provider) : List (String × CategoryEntry) :=
  pd.foldl
    (fun acc p =>
      if p.authBackends.isEmpty then acc
      else dictInsert p.packageName { name := p.name, items := p.authBackends } acc)
    []

/-- Embedding of `_prepare_secrets_backend_data`. -/
def prepare_secrets_backend_data (pd : List Provider) : List (String × CategoryEntry) :=
  pd.foldl
    (fun acc p =>
      if p.secretsBackends.isEmpty then acc
      else dictInsert p.packageName { name := p.name, items := p.secretsBackends } acc)
    []

/-- Embedding of `_prepare_connections_data`. -/
def prepare_connections_data (pd : List Provider) : List (String × CategoryEntry) :=
  pd.foldl
    (fun acc p =>
      if p.connectionTypes.isEmpty then acc
      else dictInsert p.packageName { name := p.name, items := p.connectionTypes } acc)
    []

/-- Embedding of `_prepare_extra_links_data`. -/
def prepare_extra_links_data (pd : List Provider) : List (String × CategoryEntry) :=
  pd.foldl
    (fun acc p =>
      if p.extraLinks.isEmpty then acc
      else dictInsert p.packageName { name := p.name, items := p.extraLinks } acc)
    []

/-- All resource-name/record insertions performed by `_prepare_resource_index`,
as key-value pairs in iteration order. -/
def resourcePairs (pd : List Provider) (get : Provider → List Resource) :
    List (String × IndexedResource) :=
  (resourceEntries pd get).map (fun e => (integrationKey e, e))

/-- Example provider record in the style of the Amazon provider YAML. -/
def exAmazon : Provider :=
  { packageName := "apache-airflow-providers-amazon"
    name := "Amazon"
    integrations := [{ integrationName := "Amazon Web Services", tags := some ["aws"] }]
    operators := [{ integrationName := "Amazon Web Services" }]
    hooks := [{ integrationName := "Amazon Web Services" }]
    transfers := [{ sourceIntegrationName := "Amazon Web Services",
                    targetIntegrationName := "Google Cloud" }]
    logging := ["airflow.providers.amazon.aws.log.s3_task_handler.S3TaskHandler"] }

/-- Example provider record in the style of the Google provider YAML. -/
def exGoogle : Provider :=
  { packageName := "apache-airflow-providers-google"
    name := "Google"
    integrations := [{ integrationName := "Google Cloud", tags := some ["gcp"] }]
    hooks := [{ integrationName := "Google Cloud" }]
    authBackends := ["airflow.providers.google.common.auth_backend.google_openid"] }

/-- Example provider record that declares a real integration named `SQL`
(with tags and a how-to guide) and a transfer between the two synthetic
placeholder names. -/
def exSql : Provider :=
  { packageName := "apache-airflow-providers-common-sql"
    name := "Common SQL"
    integrations := [{ integrationName := "SQL", tags := some ["sql"],
                       howToGuide := some ["/docs/apache-airflow-providers-common-sql/operators.rst"] }]
    transfers := [{ sourceIntegrationName := "SQL", targetIntegrationName := "Local" }] }

/-- A two-provider example dataset. -/
def exPd : List Provider := [exAmazon, exGoogle]

/-- The example dataset extended with a provider whose integration is
named like a synthetic placeholder. -/
def exPdSql : List Provider := [exAmazon, exGoogle, exSql]

/-- The unfiltered transfers aggregation of `exPd`. -/
def exResolved : List ResolvedTransfer :=
  (prepare_transfer_data exPd none).toOption.getD []

/-- The transfers aggregation of `exPd` under the tag filter `{"gcp"}`. -/
def exResolvedGcp : List ResolvedTransfer :=
  (prepare_transfer_data exPd (some ["gcp"])).toOption.getD []

/-- The transfers aggregation of `exPd` under the tag filter `{"azure"}`. -/
def exResolvedAzure : List ResolvedTransfer :=
  (prepare_transfer_data exPd (some ["azure"])).toOption.getD []

/-- The unfiltered transfers aggregation of `exPdSql`. -/
def exResolvedSql : List ResolvedTransfer :=
  (prepare_transfer_data exPdSql none).toOption.getD []

/-- Example provider whose transfer references an integration name that no
provider declares. -/
def exBad : Provider :=
  { packageName := "apache-airflow-providers-bad"
    name := "Bad"
    transfers := [{ sourceIntegrationName := "Nowhere", targetIntegrationName := "Local" }] }

/-- A dataset with an unresolvable transfer endpoint. -/
def exPdBad : List Provider := [exBad]

/-- The resolved `SQL -> Local` transfer of `exPdSql` (its second transfer
in load order). -/
def exTransferSqlLocal : ResolvedTransfer :=
  exResolvedSql.getD 1
    { transfer := { sourceIntegrationName := "", targetIntegrationName := "" }
      packageName := ""
      sourceIntegration := placeholderIntegration ""
      targetIntegration := placeholderIntegration "" }

/-- The unfiltered operators/hooks aggregation of `exPd`. -/
def exOpsAll : List OperatorItem :=
  (prepare_operators_data exPd none).toOption.getD []

/-- The operators/hooks aggregation of `exPd` under the tag filter `{"aws"}`. -/
def exOpsAws : List OperatorItem :=
  (prepare_operators_data exPd (some ["aws"])).toOption.getD []

/-- The first (and only) item of `exOpsAws`: the Amazon Web Services
integration with its operator and hook. -/
def exItemAws : OperatorItem :=
  exOpsAws.getD 0 { integration := placeholderIntegration "" }

/-! ## Dictionary lemmas -/

theorem dictGet_cons {α : Type} (k : String) (kv : String × α) (d : List (String × α)) :
    dictGet k (kv :: d) = if kv.1 = k then some kv.2 else dictGet k d := by
  by_cases h : kv.1 = k <;> simp [dictGet, List.find?, h]

theorem dictGet_dictInsert {α : Type} (k k' : String) (v : α) (d : List (String × α)) :
    dictGet k (dictInsert k' v d) = if k' = k then some v else dictGet k d := by
  induction d with
  | nil =>
    by_cases h : k' = k <;> simp [dictInsert, dictGet, List.find?, h]
  | cons kv rest ih =>
    by_cases hh : kv.1 = k'
    · have hins : dictInsert k' v (kv :: rest) = (k', v) :: rest := by
        simp [dictInsert, hh]
      rw [hins, dictGet_cons, dictGet_cons]
      by_cases h : k' = k
      · simp [h]
      · have : ¬ kv.1 = k := by rw [hh]; exact h
        simp [h, this]
    · have hins : dictInsert k' v (kv :: rest) = kv :: dictInsert k' v rest := by
        simp [dictInsert, hh]
      rw [hins, dictGet_cons, dictGet_cons]
      by_cases h2 : kv.1 = k
      · have : ¬ k' = k := fun e => hh (by rw [h2, e])
        simp [h2, this]
      · simp [h2, ih]

theorem dictGet_foldl_insert {α : Type} (k : String) :
    ∀ (l : List (String × α)) (d : List (String × α)),
      dictGet k (l.foldl (fun d kv => dictInsert kv.1 kv.2 d) d) =
        match l.reverse.find? (fun kv => kv.1 = k) with
        | some kv => some kv.2
        | none => dictGet k d := by
  intro l
  induction l with
  | nil => intro d; simp
  | cons kv rest ih =>
    intro d
    have step := ih (dictInsert kv.1 kv.2 d)
    simp only [List.foldl_cons] at *
    rw [step]
    have happ : (kv :: rest).reverse = rest.reverse ++ [kv] := by simp
    rw [happ, List.find?_append]
    cases hfind : rest.reverse.find? (fun kv => kv.1 = k) with
    | some kv' => simp [Option.or]
    | none =>
      simp only [Option.or, dictGet_dictInsert]
      by_cases h : kv.1 = k <;> simp [List.find?, h]

theorem prepare_resource_index_eq_foldl (pd : List Provider) (get : Provider → List Resource) :
    prepare_resource_index pd get =
      (resourcePairs pd get).foldl (fun d kv => dictInsert kv.1 kv.2 d) [] := by
  suffices h : ∀ d, pd.foldl
      (fun d p => (get p).foldl
        (fun d i => dictInsert i.integrationName
          { resource := i, packageName := some p.packageName } d) d) d =
      (resourcePairs pd get).foldl (fun d kv => dictInsert kv.1 kv.2 d) d by
    exact h []
  induction pd with
  | nil => intro d; simp [resourcePairs, resourceEntries]
  | cons p rest ih =>
    intro d
    simp only [List.foldl_cons]
    rw [ih]
    have hpairs : resourcePairs (p :: rest) get =
        ((get p).map (fun i => (i.integrationName,
          ({ resource := i, packageName := some p.packageName } : IndexedResource)))) ++
          resourcePairs rest get := by
      simp [resourcePairs, resourceEntries, integrationKey]
    rw [hpairs, List.foldl_append, List.foldl_map]

/-- C1: For every list of provider records and every resource category, the
index built by `_prepare_resource_index` maps each declared integration name
to the record of the last resource with that name in load order, augmented
with the owning provider's package name (`resourceEntries` lists exactly
those augmented records in load order); collisions are silently overwritten,
no error is raised (the function is total). -/
theorem claim_C1 (pd : List Provider) (get : Provider → List Resource) (name : String) :
    dictGet name (prepare_resource_index pd get) =
      (resourceEntries pd get).reverse.find? (fun e => integrationKey e = name) := by
  rw [prepare_resource_index_eq_foldl, dictGet_foldl_insert]
  have hmap : (resourcePairs pd get).reverse =
      (resourceEntries pd get).reverse.map (fun e => (integrationKey e, e)) := by
    simp [resourcePairs]
  rw [hmap, List.find?_map]
  cases hfind : (resourceEntries pd get).reverse.find?
      ((fun kv => kv.1 = name) ∘ (fun e => (integrationKey e, e))) with
  | none =>
    have : (resourceEntries pd get).reverse.find? (fun e => integrationKey e = name) = none := by
      simpa [Function.comp] using hfind
    simp [this, dictGet]
  | some e =>
    have : (resourceEntries pd get).reverse.find? (fun e => integrationKey e = name) = some e := by
      simpa [Function.comp] using hfind
    simp [this]

/-! ## Path normalizer claims -/

/-- C4: In the operators/hooks aggregation the `sensors` index is built from
the `"hooks"` resource category (not from a `"sensors"` one), so the sensors
lookup of every integration name equals the hooks lookup; the conflation is
reproduced exactly. -/
theorem claim_C4 (pd : List Provider) (name : String) :
    allSensorsByIntegration pd = prepare_resource_index pd (fun p => p.hooks) ∧
    dictGet name (allSensorsByIntegration pd) = dictGet name (allHooksByIntegration pd) :=
  ⟨rfl, rfl⟩

/-- C6: `_docs_path` fails with a descriptive format error when the input
does not start with `/docs/`, fails with a second, distinct format error
when it does not end with `.rst`, and succeeds only when both the prefix
and the suffix condition hold. -/
theorem claim_C6 (f : String) :
    (pyStartsWith f "/docs/" = false →
      docs_path f = .error (.formatError (docsPathBadStartMsg f))) ∧
    (pyStartsWith f "/docs/" = true → pyEndsWith f ".rst" = false →
      docs_path f = .error (.formatError (docsPathBadEndMsg f))) ∧
    docsPathBadStartMsg f ≠ docsPathBadEndMsg f ∧
    (∀ r, docs_path f = .ok r → pyStartsWith f "/docs/" = true ∧ pyEndsWith f ".rst" = true) := by
  refine ⟨?_, ?_, ?_, ?_⟩
  · intro h
    simp [docs_path, h]
  · intro h1 h2
    simp [docs_path, h1, h2]
  · intro h
    have h2 := congrArg String.length h
    simp only [docsPathBadStartMsg, docsPathBadEndMsg, String.length_append] at h2
    have h3 : ("The path must starts with \x27/docs/\x27. Current value: " : String).length =
        ("The path must ends with \x27.rst\x27. Current value: " : String).length := by omega
    exact absurd h3 (by decide)
  · intro r hr
    by_cases h1 : pyStartsWith f "/docs/" = true
    · by_cases h2 : pyEndsWith f ".rst" = true
      · exact ⟨h1, h2⟩
      · simp [docs_path, h1, Bool.eq_false_iff.mpr h2] at hr
    · simp [docs_path, Bool.eq_false_iff.mpr h1] at hr

/-- C6 witness: the two failure branches at concrete malformed inputs. -/
theorem claim_C6_witness :
    docs_path "nope.rst" = .error (.formatError (docsPathBadStartMsg "nope.rst")) ∧
    docs_path "/docs/x.txt" = .error (.formatError (docsPathBadEndMsg "/docs/x.txt")) :=
  ⟨(claim_C6 "nope.rst").1 (by decide),
   (claim_C6 "/docs/x.txt").2.1 (by decide) (by decide)⟩

/-- C7 counterexample: on
`/docs/apache-airflow-providers-amazon/operators/lambda.rst` the normalizer
does not return `amazon:operators/lambda` — the third slash-separated field
kept by `split("/", maxsplit=3)` is the whole directory name
`apache-airflow-providers-amazon`, not the bare provider id. -/
theorem claim_C7_counterexample :
    docs_path "/docs/apache-airflow-providers-amazon/operators/lambda.rst" ≠
      Except.ok "amazon:operators/lambda" := by
  intro h
  have hfull : docs_path "/docs/apache-airflow-providers-amazon/operators/lambda.rst" =
      Except.ok "apache-airflow-providers-amazon:operators/lambda" := rfl
  rw [hfull] at h
  exact absurd (Except.ok.inj h) (by decide)

/-- C7 (amended): the provider branch rewrites
`/docs/apache-airflow-providers-amazon/operators/lambda.rst` into the short
form `apache-airflow-providers-amazon:operators/lambda` — the provider
segment is the full docs directory name and the `.rst` extension is
stripped. -/
theorem claim_C7 :
    docs_path "/docs/apache-airflow-providers-amazon/operators/lambda.rst" =
      Except.ok "apache-airflow-providers-amazon:operators/lambda" := rfl

/-! ## Except and transfer lemmas -/

theorem except_bind_ok {α β : Type} (e : Except PyError α) (f : α → Except PyError β) (b : β) :
    (e >>= f) = .ok b ↔ ∃ a, e = .ok a ∧ f a = .ok b := by
  cases e <;> simp [Bind.bind, Except.bind]

theorem except_bind_error {α β : Type} (e : Except PyError α) (f : α → Except PyError β)
    (err : PyError) :
    (e >>= f) = .error err ↔ e = .error err ∨ ∃ a, e = .ok a ∧ f a = .error err := by
  cases e <;> simp [Bind.bind, Except.bind]

theorem docs_path_error_shape (f : String) (e : PyError) (h : docs_path f = .error e) :
    (∃ m, e = .formatError m) ∨ (∃ m, e = .valueError m) := by
  unfold docs_path at h
  split at h
  · exact Or.inl ⟨_, (Except.error.inj h).symm⟩
  · split at h
    · exact Or.inl ⟨_, (Except.error.inj h).symm⟩
    · split at h
      · rename_i e' heq
        split at heq
        · split at heq
          · exact absurd heq (by simp)
          · have he' := Except.error.inj heq
            have he := Except.error.inj h
            exact Or.inr ⟨_, by rw [← he, ← he']⟩
        · exact absurd heq (by simp)
      · exact absurd h (by simp)

theorem resolveProviderTransfers_ok (idx : List (String × IndexedResource)) (p : Provider) :
    ∀ (ts : List Transfer) (rs : List ResolvedTransfer),
      resolveProviderTransfers idx p ts = .ok rs →
      rs.length = ts.length ∧
      (∀ t ∈ ts, (dictGet t.sourceIntegrationName idx).isSome = true ∧
        (dictGet t.targetIntegrationName idx).isSome = true) ∧
      (∀ r ∈ rs,
        dictGet r.transfer.sourceIntegrationName idx = some r.sourceIntegration ∧
        dictGet r.transfer.targetIntegrationName idx = some r.targetIntegration) := by
  intro ts
  induction ts with
  | nil =>
    intro rs h
    simp only [resolveProviderTransfers] at h
    have : rs = [] := (Except.ok.inj h).symm
    subst this
    simp
  | cons t rest ih =>
    intro rs h
    simp only [resolveProviderTransfers] at h
    cases hsrc : dictGet t.sourceIntegrationName idx with
    | none => rw [hsrc] at h; simp [Bind.bind, Except.bind] at h
    | some sv =>
      rw [hsrc] at h
      cases htgt : dictGet t.targetIntegrationName idx with
      | none => rw [htgt] at h; simp [Bind.bind, Except.bind] at h
      | some tv =>
        rw [htgt] at h
        simp only [Bind.bind, Except.bind] at h
        cases hrest : resolveProviderTransfers idx p rest with
        | error e => rw [hrest] at h; simp at h
        | ok rest' =>
          rw [hrest] at h
          simp only [] at h
          have hrs := (Except.ok.inj h).symm
          obtain ⟨hlen, hall, hmem⟩ := ih rest' hrest
          subst hrs
          refine ⟨by simp [hlen], ?_, ?_⟩
          · intro t' ht'
            rcases List.mem_cons.mp ht' with h1 | h1
            · subst h1; simp [hsrc, htgt]
            · exact hall t' h1
          · intro r hr
            rcases List.mem_cons.mp hr with h1 | h1
            · subst h1; simp only []; exact ⟨hsrc, htgt⟩
            · exact hmem r h1

theorem resolveProviderTransfers_error (idx : List (String × IndexedResource)) (p : Provider) :
    ∀ (ts : List Transfer) (e : PyError),
      resolveProviderTransfers idx p ts = .error e →
      (∃ k, e = .keyError k) ∧
      ∃ t ∈ ts, dictGet t.sourceIntegrationName idx = none ∨
        dictGet t.targetIntegrationName idx = none := by
  intro ts
  induction ts with
  | nil => intro e h; simp [resolveProviderTransfers] at h
  | cons t rest ih =>
    intro e h
    simp only [resolveProviderTransfers] at h
    cases hsrc : dictGet t.sourceIntegrationName idx with
    | none =>
      rw [hsrc] at h
      simp only [Bind.bind, Except.bind] at h
      have he := (Except.error.inj h).symm
      exact ⟨⟨_, he⟩, t, List.mem_cons_self t rest, Or.inl hsrc⟩
    | some sv =>
      rw [hsrc] at h
      cases htgt : dictGet t.targetIntegrationName idx with
      | none =>
        rw [htgt] at h
        simp only [Bind.bind, Except.bind] at h
        have he := (Except.error.inj h).symm
        exact ⟨⟨_, he⟩, t, List.mem_cons_self t rest, Or.inr htgt⟩
      | some tv =>
        rw [htgt] at h
        simp only [Bind.bind, Except.bind] at h
        cases hrest : resolveProviderTransfers idx p rest with
        | error e' =>
          rw [hrest] at h
          simp only [] at h
          have he := (Except.error.inj h)
          obtain ⟨hk, t', ht', hmiss⟩ := ih e' hrest
          exact ⟨he ▸ hk, t', List.mem_cons_of_mem t ht', hmiss⟩
        | ok rest' => rw [hrest] at h; simp at h

theorem resolveProviderTransfers_missing (idx : List (String × IndexedResource)) (p : Provider) :
    ∀ (ts : List Transfer),
      (∃ t ∈ ts, dictGet t.sourceIntegrationName idx = none ∨
        dictGet t.targetIntegrationName idx = none) →
      ∃ k, resolveProviderTransfers idx p ts = .error (.keyError k) := by
  intro ts
  induction ts with
  | nil => rintro ⟨t, ht, _⟩; exact absurd ht (List.not_mem_nil t)
  | cons t rest ih =>
    rintro ⟨t', ht', hmiss⟩
    by_cases hsrc : dictGet t.sourceIntegrationName idx = none
    · exact ⟨t.sourceIntegrationName, by
        simp only [resolveProviderTransfers, hsrc, Bind.bind, Except.bind]⟩
    · obtain ⟨sv, hsv⟩ := Option.ne_none_iff_exists'.mp hsrc
      by_cases htgt : dictGet t.targetIntegrationName idx = none
      · exact ⟨t.targetIntegrationName, by
          simp only [resolveProviderTransfers, hsv, htgt, Bind.bind, Except.bind]⟩
      · obtain ⟨tv, htv⟩ := Option.ne_none_iff_exists'.mp htgt
        have hrest : ∃ t ∈ rest, dictGet t.sourceIntegrationName idx = none ∨
            dictGet t.targetIntegrationName idx = none := by
          rcases List.mem_cons.mp ht' with h1 | h1
          · subst h1
            rcases hmiss with h2 | h2
            · exact absurd h2 hsrc
            · exact absurd h2 htgt
          · exact ⟨t', h1, hmiss⟩
        obtain ⟨k, hk⟩ := ih hrest
        exact ⟨k, by
          simp only [resolveProviderTransfers, hsv, htv, Bind.bind, Except.bind, hk]⟩

theorem resolveTransfers_ok (idx : List (String × IndexedResource)) :
    ∀ (pd : List Provider) (rs : List ResolvedTransfer),
      resolveTransfers idx pd = .ok rs →
      rs.length = (pd.map (fun p => p.transfers.length)).sum ∧
      (∀ p ∈ pd, ∀ t ∈ p.transfers,
        (dictGet t.sourceIntegrationName idx).isSome = true ∧
        (dictGet t.targetIntegrationName idx).isSome = true) ∧
      (∀ r ∈ rs,
        dictGet r.transfer.sourceIntegrationName idx = some r.sourceIntegration ∧
        dictGet r.transfer.targetIntegrationName idx = some r.targetIntegration) := by
  intro pd
  induction pd with
  | nil =>
    intro rs h
    simp only [resolveTransfers] at h
    have : rs = [] := (Except.ok.inj h).symm
    subst this
    simp
  | cons p rest ih =>
    intro rs h
    simp only [resolveTransfers] at h
    cases hhead : resolveProviderTransfers idx p p.transfers with
    | error e => rw [hhead] at h; simp [Bind.bind, Except.bind] at h
    | ok head =>
      rw [hhead] at h
      simp only [Bind.bind, Except.bind] at h
      cases hrest : resolveTransfers idx rest with
      | error e => rw [hrest] at h; simp at h
      | ok rest' =>
        rw [hrest] at h
        simp only [] at h
        have hrs := (Except.ok.inj h).symm
        subst hrs
        obtain ⟨hlen1, hall1, hmem1⟩ := resolveProviderTransfers_ok idx p p.transfers head hhead
        obtain ⟨hlen2, hall2, hmem2⟩ := ih rest' hrest
        refine ⟨by simp [hlen1, hlen2], ?_, ?_⟩
        · intro p' hp'
          rcases List.mem_cons.mp hp' with h1 | h1
          · subst h1; exact hall1
          · exact hall2 p' h1
        · intro r hr
          rcases List.mem_append.mp hr with h1 | h1
          · exact hmem1 r h1
          · exact hmem2 r h1

theorem resolveTransfers_error (idx : List (String × IndexedResource)) :
    ∀ (pd : List Provider) (e : PyError),
      resolveTransfers idx pd = .error e →
      (∃ k, e = .keyError k) ∧
      ∃ p ∈ pd, ∃ t ∈ p.transfers, dictGet t.sourceIntegrationName idx = none ∨
        dictGet t.targetIntegrationName idx = none := by
  intro pd
  induction pd with
  | nil => intro e h; simp [resolveTransfers] at h
  | cons p rest ih =>
    intro e h
    simp only [resolveTransfers] at h
    cases hhead : resolveProviderTransfers idx p p.transfers with
    | error e' =>
      rw [hhead] at h
      simp only [Bind.bind, Except.bind] at h
      have he := (Except.error.inj h)
      obtain ⟨hk, t, ht, hmiss⟩ := resolveProviderTransfers_error idx p p.transfers e' hhead
      exact ⟨he ▸ hk, p, List.mem_cons_self p rest, t, ht, hmiss⟩
    | ok head =>
      rw [hhead] at h
      simp only [Bind.bind, Except.bind] at h
      cases hrest : resolveTransfers idx rest with
      | error e' =>
        rw [hrest] at h
        simp only [] at h
        have he := (Except.error.inj h)
        obtain ⟨hk, p', hp', t, ht, hmiss⟩ := ih e' hrest
        exact ⟨he ▸ hk, p', List.mem_cons_of_mem p hp', t, ht, hmiss⟩
      | ok rest' => rw [hrest] at h; simp at h

theorem resolveTransfers_missing (idx : List (String × IndexedResource)) :
    ∀ (pd : List Provider),
      (∃ p ∈ pd, ∃ t ∈ p.transfers, dictGet t.sourceIntegrationName idx = none ∨
        dictGet t.targetIntegrationName idx = none) →
      ∃ k, resolveTransfers idx pd = .error (.keyError k) := by
  intro pd
  induction pd with
  | nil => rintro ⟨p, hp, _⟩; exact absurd hp (List.not_mem_nil p)
  | cons p rest ih =>
    rintro ⟨p', hp', t, ht, hmiss⟩
    rcases List.mem_cons.mp hp' with h1 | h1
    · subst h1
      obtain ⟨k, hk⟩ := resolveProviderTransfers_missing idx p' p'.transfers ⟨t, ht, hmiss⟩
      exact ⟨k, by simp only [resolveTransfers, hk, Bind.bind, Except.bind]⟩
    · cases hhead : resolveProviderTransfers idx p p.transfers with
      | error e =>
        obtain ⟨⟨k, hk⟩, _⟩ := resolveProviderTransfers_error idx p p.transfers e hhead
        exact ⟨k, by simp only [resolveTransfers, hhead, Bind.bind, Except.bind, hk]⟩
      | ok head =>
        obtain ⟨k, hk⟩ := ih ⟨p', h1, t, ht, hmiss⟩
        exact ⟨k, by simp only [resolveTransfers, hhead, Bind.bind, Except.bind, hk]⟩

theorem rewriteTransferGuide_ok (t t' : ResolvedTransfer)
    (h : rewriteTransferGuide t = .ok t') :
    t'.sourceIntegration = t.sourceIntegration ∧
    t'.targetIntegration = t.targetIntegration ∧
    t'.transfer.sourceIntegrationName = t.transfer.sourceIntegrationName ∧
    t'.transfer.targetIntegrationName = t.transfer.targetIntegrationName ∧
    t'.packageName = t.packageName := by
  unfold rewriteTransferGuide at h
  split at h
  · have := (Except.ok.inj h).symm
    subst this
    exact ⟨rfl, rfl, rfl, rfl, rfl⟩
  · cases hg : docs_path _ with
    | error e =>
      rw [hg] at h
      simp [Bind.bind, Except.bind] at h
    | ok g' =>
      rw [hg] at h
      simp only [Bind.bind, Except.bind] at h
      have := (Except.ok.inj h).symm
      subst this
      exact ⟨rfl, rfl, rfl, rfl, rfl⟩

theorem rewriteTransferGuide_error (t : ResolvedTransfer) (e : PyError)
    (h : rewriteTransferGuide t = .error e) :
    (∃ m, e = .formatError m) ∨ (∃ m, e = .valueError m) := by
  unfold rewriteTransferGuide at h
  split at h
  · simp at h
  · cases hg : docs_path _ with
    | error e' =>
      rw [hg] at h
      simp only [Bind.bind, Except.bind] at h
      have := (Except.error.inj h)
      exact this ▸ docs_path_error_shape _ e' hg
    | ok g' =>
      rw [hg] at h
      simp [Bind.bind, Except.bind] at h

theorem rewriteTransferGuide_matches (fs : List String) (t t' : ResolvedTransfer)
    (h : rewriteTransferGuide t = .ok t') :
    transferMatchesTags fs t' = transferMatchesTags fs t := by
  obtain ⟨h1, h2, _⟩ := rewriteTransferGuide_ok t t' h
  simp [transferMatchesTags, h1, h2]

theorem rewriteTransferGuides_ok :
    ∀ (l l' : List ResolvedTransfer), rewriteTransferGuides l = .ok l' →
      l'.length = l.length ∧
      ∀ r' ∈ l', ∃ r ∈ l,
        r'.sourceIntegration = r.sourceIntegration ∧
        r'.targetIntegration = r.targetIntegration ∧
        r'.transfer.sourceIntegrationName = r.transfer.sourceIntegrationName ∧
        r'.transfer.targetIntegrationName = r.transfer.targetIntegrationName := by
  intro l
  induction l with
  | nil =>
    intro l' h
    simp only [rewriteTransferGuides] at h
    have : l' = [] := (Except.ok.inj h).symm
    subst this
    simp
  | cons t rest ih =>
    intro l' h
    simp only [rewriteTransferGuides] at h
    cases ht : rewriteTransferGuide t with
    | error e => rw [ht] at h; simp [Bind.bind, Except.bind] at h
    | ok t' =>
      rw [ht] at h
      simp only [Bind.bind, Except.bind] at h
      cases hrest : rewriteTransferGuides rest with
      | error e => rw [hrest] at h; simp at h
      | ok rest' =>
        rw [hrest] at h
        simp only [] at h
        have := (Except.ok.inj h).symm
        subst this
        obtain ⟨hlen, hmem⟩ := ih rest' hrest
        refine ⟨by simp [hlen], ?_⟩
        intro r' hr'
        rcases List.mem_cons.mp hr' with h1 | h1
        · subst h1
          obtain ⟨e1, e2, e3, e4, _⟩ := rewriteTransferGuide_ok t r' ht
          exact ⟨t, List.mem_cons_self t rest, e1, e2, e3, e4⟩
        · obtain ⟨r, hr, hs⟩ := hmem r' h1
          exact ⟨r, List.mem_cons_of_mem t hr, hs⟩

theorem rewriteTransferGuides_error :
    ∀ (l : List ResolvedTransfer) (e : PyError), rewriteTransferGuides l = .error e →
      (∃ m, e = .formatError m) ∨ (∃ m, e = .valueError m) := by
  intro l
  induction l with
  | nil => intro e h; simp [rewriteTransferGuides] at h
  | cons t rest ih =>
    intro e h
    simp only [rewriteTransferGuides] at h
    cases ht : rewriteTransferGuide t with
    | error e' =>
      rw [ht] at h
      simp only [Bind.bind, Except.bind] at h
      exact (Except.error.inj h) ▸ rewriteTransferGuide_error t e' ht
    | ok t' =>
      rw [ht] at h
      simp only [Bind.bind, Except.bind] at h
      cases hrest : rewriteTransferGuides rest with
      | error e' =>
        rw [hrest] at h
        simp only [] at h
        exact (Except.error.inj h) ▸ ih e' hrest
      | ok rest' => rw [hrest] at h; simp at h

theorem rewriteTransferGuides_filter (fs : List String) :
    ∀ (l l' : List ResolvedTransfer), rewriteTransferGuides l = .ok l' →
      rewriteTransferGuides (l.filter (transferMatchesTags fs)) =
        .ok (l'.filter (transferMatchesTags fs)) := by
  intro l
  induction l with
  | nil =>
    intro l' h
    simp only [rewriteTransferGuides] at h
    have : l' = [] := (Except.ok.inj h).symm
    subst this
    simp [rewriteTransferGuides]
  | cons t rest ih =>
    intro l' h
    simp only [rewriteTransferGuides] at h
    cases ht : rewriteTransferGuide t with
    | error e => rw [ht] at h; simp [Bind.bind, Except.bind] at h
    | ok t' =>
      rw [ht] at h
      simp only [Bind.bind, Except.bind] at h
      cases hrest : rewriteTransferGuides rest with
      | error e => rw [hrest] at h; simp at h
      | ok rest' =>
        rw [hrest] at h
        simp only [] at h
        have := (Except.ok.inj h).symm
        subst this
        have hmatch := rewriteTransferGuide_matches fs t t' ht
        by_cases hkeep : transferMatchesTags fs t = true
        · rw [List.filter_cons_of_pos hkeep, List.filter_cons_of_pos (hmatch.trans hkeep)]
          simp only [rewriteTransferGuides, ht, Bind.bind, Except.bind, ih rest' hrest]
        · have hkeep' : ¬ transferMatchesTags fs t' = true := by rw [hmatch]; exact hkeep
          rw [List.filter_cons_of_neg (by simpa using hkeep),
            List.filter_cons_of_neg (by simpa using hkeep')]
          exact ih rest' hrest

theorem transferIntegrationIndex_SQL (pd : List Provider) :
    dictGet "SQL" (transferIntegrationIndex pd) = some (placeholderIntegration "SQL") := by
  show dictGet "SQL" (dictInsert "Local" (placeholderIntegration "Local")
    (dictInsert "SQL" (placeholderIntegration "SQL")
      (prepare_resource_index pd (fun p => p.integrations)))) = _
  rw [dictGet_dictInsert]
  rw [if_neg (by decide)]
  rw [dictGet_dictInsert]
  rw [if_pos rfl]

theorem transferIntegrationIndex_Local (pd : List Provider) :
    dictGet "Local" (transferIntegrationIndex pd) = some (placeholderIntegration "Local") := by
  show dictGet "Local" (dictInsert "Local" (placeholderIntegration "Local")
    (dictInsert "SQL" (placeholderIntegration "SQL")
      (prepare_resource_index pd (fun p => p.integrations)))) = _
  rw [dictGet_dictInsert]
  rw [if_pos rfl]

/-! ## Transfers claims -/

/-- C3: the transfers aggregation resolves endpoints against the integration
index extended with the synthetic `SQL` and `Local` placeholders; it raises
an uncaught `KeyError` exactly when some transfer's source or target name is
absent from that extended index (so `SQL`/`Local` references always
resolve), and when it succeeds with no filter it returns one record per
declared transfer — none is silently dropped. -/
theorem claim_C3 (pd : List Provider) (tags : Option (List String)) :
    ((∃ k, prepare_transfer_data pd tags = .error (.keyError k)) ↔
      ∃ p ∈ pd, ∃ t ∈ p.transfers,
        dictGet t.sourceIntegrationName (transferIntegrationIndex pd) = none ∨
        dictGet t.targetIntegrationName (transferIntegrationIndex pd) = none) ∧
    dictGet "SQL" (transferIntegrationIndex pd) = some (placeholderIntegration "SQL") ∧
    dictGet "Local" (transferIntegrationIndex pd) = some (placeholderIntegration "Local") ∧
    (∀ l, prepare_transfer_data pd none = .ok l →
      l.length = (pd.map (fun p => p.transfers.length)).sum) := by
  refine ⟨⟨?_, ?_⟩, transferIntegrationIndex_SQL pd, transferIntegrationIndex_Local pd, ?_⟩
  · rintro ⟨k, hk⟩
    simp only [prepare_transfer_data] at hk
    rcases (except_bind_error _ _ _).mp hk with h | ⟨ts, hres, hrw⟩
    · exact (resolveTransfers_error _ pd _ h).2
    · rcases rewriteTransferGuides_error _ _ hrw with ⟨m, hm⟩ | ⟨m, hm⟩ <;> simp at hm
  · intro hmiss
    obtain ⟨k, hk⟩ := resolveTransfers_missing (transferIntegrationIndex pd) pd hmiss
    exact ⟨k, by simp only [prepare_transfer_data, hk, Bind.bind, Except.bind]⟩
  · intro l h
    simp only [prepare_transfer_data] at h
    obtain ⟨ts, hres, hrw⟩ := (except_bind_ok _ _ _).mp h
    obtain ⟨hlen1, _, _⟩ := resolveTransfers_ok _ pd ts hres
    obtain ⟨hlen2, _⟩ := rewriteTransferGuides_ok _ l hrw
    rw [hlen2, hlen1]

/-- C5: under a tag filter the transfers view is exactly the unfiltered view
restricted to transfers whose source or target integration tags intersect
the filter (OR, not AND). -/
theorem claim_C5 (pd : List Provider) (fs : List String) (lAll lF : List ResolvedTransfer)
    (h1 : prepare_transfer_data pd none = .ok lAll)
    (h2 : prepare_transfer_data pd (some fs) = .ok lF) :
    lF = lAll.filter (transferMatchesTags fs) := by
  simp only [prepare_transfer_data] at h1 h2
  obtain ⟨ts1, hres1, hrw1⟩ := (except_bind_ok _ _ _).mp h1
  obtain ⟨ts2, hres2, hrw2⟩ := (except_bind_ok _ _ _).mp h2
  have hts : ts1 = ts2 := Except.ok.inj (hres1.symm.trans hres2)
  subst hts
  have h3 := rewriteTransferGuides_filter fs ts1 lAll hrw1
  exact (Except.ok.inj (h3.symm.trans hrw2)).symm

/-- C5 witness: the transfer of `exPd` has source tags `{"aws"}` and target
tags `{"gcp"}`; it is kept under the filter `{"gcp"}` and dropped under
`{"azure"}`. -/
theorem claim_C5_witness :
    exResolvedGcp = exResolved.filter (transferMatchesTags ["gcp"]) ∧
    exResolvedAzure = exResolved.filter (transferMatchesTags ["azure"]) ∧
    exResolvedGcp.length = 1 ∧
    exResolvedAzure = [] :=
  ⟨claim_C5 exPd ["gcp"] exResolved exResolvedGcp rfl rfl,
   claim_C5 exPd ["azure"] exResolved exResolvedAzure rfl rfl,
   by decide, by decide⟩

/-- C3 witness: on `exPdSql` the successful unfiltered aggregation returns
one record per declared transfer, and on `exPdBad` — whose transfer names
the undeclared integration `Nowhere` — the aggregation fails with a
`KeyError`. -/
theorem claim_C3_witness :
    exResolvedSql.length = (exPdSql.map (fun p => p.transfers.length)).sum ∧
    (∃ k, prepare_transfer_data exPdBad none = .error (.keyError k)) :=
  ⟨(claim_C3 exPdSql none).2.2.2 exResolvedSql rfl,
   (claim_C3 exPdBad none).1.mpr
     ⟨exBad, by decide,
      { sourceIntegrationName := "Nowhere", targetIntegrationName := "Local" }, by decide,
      Or.inl (by decide)⟩⟩

/-- C10: the synthetic placeholders are inserted after the real integration
index is built, so the extended index maps `SQL` and `Local` to the bare
placeholder record even when a provider declares a real integration of that
name, and every resolved transfer endpoint with that name is the bare
placeholder (without the real record's tags, guides or package name). -/
theorem claim_C10 (pd : List Provider) (name : String)
    (hname : name = "SQL" ∨ name = "Local") :
    dictGet name (transferIntegrationIndex pd) = some (placeholderIntegration name) ∧
    ∀ tags l, prepare_transfer_data pd tags = .ok l → ∀ t ∈ l,
      (t.transfer.sourceIntegrationName = name →
        t.sourceIntegration = placeholderIntegration name) ∧
      (t.transfer.targetIntegrationName = name →
        t.targetIntegration = placeholderIntegration name) := by
  have hidx : dictGet name (transferIntegrationIndex pd) =
      some (placeholderIntegration name) := by
    rcases hname with h | h
    · subst h; exact transferIntegrationIndex_SQL pd
    · subst h; exact transferIntegrationIndex_Local pd
  refine ⟨hidx, ?_⟩
  intro tags l h t ht
  simp only [prepare_transfer_data] at h
  obtain ⟨ts, hres, hrw⟩ := (except_bind_ok _ _ _).mp h
  obtain ⟨_, _, hmem⟩ := resolveTransfers_ok _ pd ts hres
  obtain ⟨_, hmem'⟩ := rewriteTransferGuides_ok _ l hrw
  obtain ⟨r, hr, e1, e2, e3, e4⟩ := hmem' t ht
  have hrts : r ∈ ts := by
    cases tags with
    | none => exact hr
    | some fs => exact List.mem_of_mem_filter hr
  obtain ⟨hsrc, htgt⟩ := hmem r hrts
  constructor
  · intro hn
    have hname' : r.transfer.sourceIntegrationName = name := by rw [← e3, hn]
    rw [hname', hidx] at hsrc
    rw [e1, ← Option.some.inj hsrc]
  · intro hn
    have hname' : r.transfer.targetIntegrationName = name := by rw [← e4, hn]
    rw [hname', hidx] at htgt
    rw [e2, ← Option.some.inj htgt]

/-- C10 witness: `exPdSql` declares a real integration named `SQL` carrying
tags and a how-to guide, yet the resolved `SQL -> Local` transfer's source
endpoint is the bare placeholder record. -/
theorem claim_C10_witness :
    exTransferSqlLocal.sourceIntegration = placeholderIntegration "SQL" ∧
    exSql.integrations.map (fun i => i.tags) = [some ["sql"]] :=
  ⟨((claim_C10 exPdSql "SQL" (Or.inl rfl)).2 none exResolvedSql rfl
      exTransferSqlLocal (by decide)).1 rfl,
   by decide⟩

/-! ## Operators/hooks view lemmas -/

theorem buildOperatorItem_integration (i' : IndexedResource)
    (o s h : Option IndexedResource) :
    (buildOperatorItem i' o s h).integration = i' := by
  unfold buildOperatorItem
  by_cases ho : o.isSome <;> by_cases hs : s.isSome <;> by_cases hh : h.isSome <;>
    simp [ho, hs, hh]

theorem buildOperatorItem_operators (i' : IndexedResource)
    (o s h : Option IndexedResource) :
    (buildOperatorItem i' o s h).operators = o := by
  unfold buildOperatorItem
  by_cases ho : o.isSome <;> by_cases hs : s.isSome <;> by_cases hh : h.isSome <;>
    simp [ho, hs, hh] <;> exact (Option.not_isSome_iff_eq_none.mp ho).symm

theorem buildOperatorItem_hooks (i' : IndexedResource)
    (o s h : Option IndexedResource) :
    (buildOperatorItem i' o s h).hooks = if h.isSome then h else s := by
  unfold buildOperatorItem
  by_cases ho : o.isSome <;> by_cases hs : s.isSome <;> by_cases hh : h.isSome <;>
    simp [ho, hs, hh] <;> exact (Option.not_isSome_iff_eq_none.mp hs).symm

theorem rewriteIntegrationGuides_key (i i' : IndexedResource)
    (h : rewriteIntegrationGuides i = .ok i') :
    integrationKey i' = integrationKey i := by
  unfold rewriteIntegrationGuides at h
  split at h
  · rw [← Except.ok.inj h]
  · cases hg : docsPathList _ with
    | error e => rw [hg] at h; simp [Bind.bind, Except.bind] at h
    | ok gs' =>
      rw [hg] at h
      simp only [Bind.bind, Except.bind] at h
      rw [← Except.ok.inj h]
      rfl

theorem filterByTags_mem (fs : List String) :
    ∀ (vs td : List IndexedResource), filterByTags fs vs = .ok td →
      ∀ i, i ∈ td ↔ i ∈ vs ∧
        ∃ ts, i.resource.tags = some ts ∧ tagsIntersect fs ts = true := by
  intro vs
  induction vs with
  | nil =>
    intro td h i
    simp only [filterByTags] at h
    have : td = [] := (Except.ok.inj h).symm
    subst this
    simp
  | cons v rest ih =>
    intro td h i
    simp only [filterByTags] at h
    cases htags : v.resource.tags with
    | none => rw [htags] at h; simp [Bind.bind, Except.bind] at h
    | some ts =>
      rw [htags] at h
      simp only [Bind.bind, Except.bind] at h
      cases hrest : filterByTags fs rest with
      | error e => rw [hrest] at h; simp at h
      | ok rest' =>
        rw [hrest] at h
        simp only [] at h
        have htd := (Except.ok.inj h).symm
        subst htd
        by_cases hkeep : tagsIntersect fs ts = true
        · rw [if_pos hkeep]
          constructor
          · intro hm
            rcases List.mem_cons.mp hm with h1 | h1
            · exact ⟨List.mem_cons.mpr (Or.inl h1), ts, by rw [h1]; exact htags, hkeep⟩
            · obtain ⟨hmem, hts⟩ := (ih rest' hrest i).mp h1
              exact ⟨List.mem_cons_of_mem v hmem, hts⟩
          · rintro ⟨hm, ts', hts', hint⟩
            rcases List.mem_cons.mp hm with h1 | h1
            · exact List.mem_cons.mpr (Or.inl h1)
            · exact List.mem_cons_of_mem v ((ih rest' hrest i).mpr ⟨h1, ts', hts', hint⟩)
        · rw [if_neg hkeep]
          constructor
          · intro hm
            obtain ⟨hmem, hts⟩ := (ih rest' hrest i).mp hm
            exact ⟨List.mem_cons_of_mem v hmem, hts⟩
          · rintro ⟨hm, ts', hts', hint⟩
            rcases List.mem_cons.mp hm with h1 | h1
            · rw [h1, htags] at hts'
              rw [← Option.some.inj hts'] at hint
              exact absurd hint hkeep
            · exact (ih rest' hrest i).mpr ⟨h1, ts', hts', hint⟩

theorem mem_keys_dictInsert {α : Type} (a k : String) (v : α) :
    ∀ d : List (String × α),
      a ∈ (dictInsert k v d).map Prod.fst ↔ a = k ∨ a ∈ d.map Prod.fst := by
  intro d
  induction d with
  | nil => simp [dictInsert]
  | cons kv rest ih =>
    by_cases hh : kv.1 = k
    · have : dictInsert k v (kv :: rest) = (k, v) :: rest := by simp [dictInsert, hh]
      rw [this]
      simp only [List.map_cons, List.mem_cons]
      constructor
      · rintro (h1 | h1)
        · exact Or.inl h1
        · exact Or.inr (Or.inr h1)
      · rintro (h1 | h1 | h1)
        · exact Or.inl h1
        · exact Or.inl (h1.trans hh)
        · exact Or.inr h1
    · have : dictInsert k v (kv :: rest) = kv :: dictInsert k v rest := by
        simp [dictInsert, hh]
      rw [this]
      simp only [List.map_cons, List.mem_cons, ih]
      tauto

theorem keys_nodup_dictInsert {α : Type} (k : String) (v : α) :
    ∀ d : List (String × α),
      (d.map Prod.fst).Nodup → ((dictInsert k v d).map Prod.fst).Nodup := by
  intro d
  induction d with
  | nil => intro _; simp [dictInsert]
  | cons kv rest ih =>
    intro hnd
    simp only [List.map_cons, List.nodup_cons] at hnd
    by_cases hh : kv.1 = k
    · have : dictInsert k v (kv :: rest) = (k, v) :: rest := by simp [dictInsert, hh]
      rw [this]
      simp only [List.map_cons, List.nodup_cons]
      exact ⟨by rw [← hh]; exact hnd.1, hnd.2⟩
    · have : dictInsert k v (kv :: rest) = kv :: dictInsert k v rest := by
        simp [dictInsert, hh]
      rw [this]
      simp only [List.map_cons, List.nodup_cons]
      refine ⟨?_, ih hnd.2⟩
      intro hmem
      rcases (mem_keys_dictInsert kv.1 k v rest).mp hmem with h1 | h1
      · exact hh h1
      · exact hnd.1 h1

theorem wellKeyed_dictInsert {α : Type} (keyf : α → String) (k : String) (v : α) :
    ∀ d : List (String × α),
      (∀ kv ∈ d, keyf kv.2 = kv.1) → keyf v = k →
      ∀ kv ∈ dictInsert k v d, keyf kv.2 = kv.1 := by
  intro d
  induction d with
  | nil =>
    intro _ hv kv hkv
    simp [dictInsert] at hkv
    subst hkv
    exact hv
  | cons kv0 rest ih =>
    intro hd hv kv hkv
    by_cases hh : kv0.1 = k
    · rw [show dictInsert k v (kv0 :: rest) = (k, v) :: rest by simp [dictInsert, hh]] at hkv
      rcases List.mem_cons.mp hkv with h1 | h1
      · subst h1; exact hv
      · exact hd kv (List.mem_cons_of_mem kv0 h1)
    · rw [show dictInsert k v (kv0 :: rest) = kv0 :: dictInsert k v rest by
        simp [dictInsert, hh]] at hkv
      rcases List.mem_cons.mp hkv with h1 | h1
      · rw [h1]; exact hd kv0 (List.mem_cons_self kv0 rest)
      · exact ih (fun kv' hkv' => hd kv' (List.mem_cons_of_mem kv0 hkv')) hv kv h1

theorem foldl_insert_invariants {α : Type} (keyf : α → String) :
    ∀ (l : List (String × α)) (d : List (String × α)),
      (∀ kv ∈ l, keyf kv.2 = kv.1) →
      (∀ kv ∈ d, keyf kv.2 = kv.1) → (d.map Prod.fst).Nodup →
      (∀ kv ∈ l.foldl (fun d kv => dictInsert kv.1 kv.2 d) d, keyf kv.2 = kv.1) ∧
      ((l.foldl (fun d kv => dictInsert kv.1 kv.2 d) d).map Prod.fst).Nodup := by
  intro l
  induction l with
  | nil => intro d _ hd hnd; exact ⟨hd, hnd⟩
  | cons kv rest ih =>
    intro d hl hd hnd
    simp only [List.foldl_cons]
    have hkv : keyf kv.2 = kv.1 := hl kv (List.mem_cons_self kv rest)
    exact ih (dictInsert kv.1 kv.2 d)
      (fun kv' hkv' => hl kv' (List.mem_cons_of_mem kv hkv'))
      (wellKeyed_dictInsert keyf kv.1 kv.2 d hd hkv)
      (keys_nodup_dictInsert kv.1 kv.2 d hnd)

theorem prepare_resource_index_invariants (pd : List Provider)
    (get : Provider → List Resource) :
    (∀ kv ∈ prepare_resource_index pd get, integrationKey kv.2 = kv.1) ∧
    ((prepare_resource_index pd get).map Prod.fst).Nodup := by
  rw [prepare_resource_index_eq_foldl]
  refine foldl_insert_invariants integrationKey (resourcePairs pd get) [] ?_ ?_ ?_
  · intro kv hkv
    simp only [resourcePairs, List.mem_map] at hkv
    obtain ⟨e, _, he⟩ := hkv
    rw [← he]
  · intro kv hkv; exact absurd hkv (List.not_mem_nil kv)
  · simp

theorem dictGet_eq_some_of_mem {α : Type} (k : String) (v : α) :
    ∀ d : List (String × α), (d.map Prod.fst).Nodup → (k, v) ∈ d →
      dictGet k d = some v := by
  intro d
  induction d with
  | nil => intro _ hmem; exact absurd hmem (List.not_mem_nil _)
  | cons kv rest ih =>
    intro hnd hmem
    simp only [List.map_cons, List.nodup_cons] at hnd
    rcases List.mem_cons.mp hmem with h1 | h1
    · rw [← h1, dictGet_cons]
      simp
    · rw [dictGet_cons]
      by_cases hh : kv.1 = k
      · exfalso
        apply hnd.1
        rw [hh]
        exact List.mem_map.mpr ⟨(k, v), h1, rfl⟩
      · rw [if_neg hh]
        exact ih hnd.2 h1

theorem mem_of_dictGet_eq_some {α : Type} (k : String) (v : α) (d : List (String × α))
    (h : dictGet k d = some v) : (k, v) ∈ d := by
  unfold dictGet at h
  cases hf : d.find? (fun kv => kv.1 = k) with
  | none => rw [hf] at h; simp at h
  | some kv =>
    rw [hf] at h
    simp at h
    have hk : kv.1 = k := by simpa using List.find?_some hf
    have hmem := List.mem_of_find?_eq_some hf
    rcases kv with ⟨a, b⟩
    simp only at hk h
    rw [← hk, ← h]
    exact hmem

theorem values_key_iff (d : List (String × IndexedResource))
    (hwk : ∀ kv ∈ d, integrationKey kv.2 = kv.1)
    (hnd : (d.map Prod.fst).Nodup) (name : String) (v : IndexedResource) :
    (v ∈ dictValues d ∧ integrationKey v = name) ↔ dictGet name d = some v := by
  constructor
  · rintro ⟨hmem, hkey⟩
    simp only [dictValues, List.mem_map] at hmem
    obtain ⟨kv, hkv, hsnd⟩ := hmem
    have h1 : kv.1 = name := by rw [← hwk kv hkv, hsnd, hkey]
    have : kv = (name, v) := by
      rcases kv with ⟨a, b⟩
      simp only at h1 hsnd
      rw [h1, hsnd]
    rw [this] at hkv
    exact dictGet_eq_some_of_mem name v d hnd hkv
  · intro h
    have hmem := mem_of_dictGet_eq_some name v d h
    refine ⟨List.mem_map.mpr ⟨(name, v), hmem, rfl⟩, ?_⟩
    exact hwk (name, v) hmem

theorem buildOperatorItems_mem (ops hks sens : List (String × IndexedResource)) :
    ∀ (td : List IndexedResource) (l : List OperatorItem),
      buildOperatorItems ops hks sens td = .ok l →
      ∀ name, (∃ item ∈ l, integrationKey item.integration = name) ↔
        ((∃ i ∈ td, integrationKey i = name) ∧
          ((dictGet name ops).isSome = true ∨ (dictGet name sens).isSome = true ∨
            (dictGet name hks).isSome = true)) := by
  intro td
  induction td with
  | nil =>
    intro l h name
    simp only [buildOperatorItems] at h
    have : l = [] := (Except.ok.inj h).symm
    subst this
    simp
  | cons i rest ih =>
    intro l h name
    simp only [buildOperatorItems] at h
    cases hri : rewriteIntegrationGuides i with
    | error e => rw [hri] at h; simp [Bind.bind, Except.bind] at h
    | ok i' =>
      rw [hri] at h
      simp only [Bind.bind, Except.bind] at h
      cases hrest : buildOperatorItems ops hks sens rest with
      | error e => rw [hrest] at h; simp at h
      | ok rest' =>
        rw [hrest] at h
        simp only [] at h
        have hl := (Except.ok.inj h).symm
        subst hl
        have hkey : integrationKey (buildOperatorItem i'
            (dictGet (integrationKey i) ops) (dictGet (integrationKey i) sens)
            (dictGet (integrationKey i) hks)).integration = integrationKey i := by
          rw [buildOperatorItem_integration]
          exact rewriteIntegrationGuides_key i i' hri
        by_cases hname : integrationKey i = name
        · by_cases hcond : ((dictGet (integrationKey i) ops).isSome ||
              (dictGet (integrationKey i) sens).isSome ||
              (dictGet (integrationKey i) hks).isSome) = true
          · rw [if_pos hcond]
            constructor
            · intro _
              refine ⟨⟨i, List.mem_cons_self i rest, hname⟩, ?_⟩
              rw [← hname]
              simpa [Bool.or_eq_true, or_assoc] using hcond
            · intro _
              exact ⟨_, List.mem_cons_self _ rest', by rw [hkey]; exact hname⟩
          · rw [if_neg hcond]
            have hnone : ¬ ((dictGet name ops).isSome = true ∨
                (dictGet name sens).isSome = true ∨ (dictGet name hks).isSome = true) := by
              rw [← hname]
              simpa [Bool.or_eq_true, or_assoc] using hcond
            constructor
            · intro hex
              obtain ⟨_, hdisj⟩ := (ih rest' hrest name).mp hex
              exact absurd hdisj hnone
            · rintro ⟨_, hdisj⟩
              exact absurd hdisj hnone
        · by_cases hcond : ((dictGet (integrationKey i) ops).isSome ||
              (dictGet (integrationKey i) sens).isSome ||
              (dictGet (integrationKey i) hks).isSome) = true
          · rw [if_pos hcond]
            constructor
            · rintro ⟨item, hitem, hik⟩
              rcases List.mem_cons.mp hitem with h1 | h1
              · exfalso
                apply hname
                rw [← hkey, ← h1]
                exact hik
              · obtain ⟨⟨i0, hi0, hk0⟩, hdisj⟩ := (ih rest' hrest name).mp ⟨item, h1, hik⟩
                exact ⟨⟨i0, List.mem_cons_of_mem i hi0, hk0⟩, hdisj⟩
            · rintro ⟨⟨i0, hi0, hk0⟩, hdisj⟩
              rcases List.mem_cons.mp hi0 with h1 | h1
              · exact absurd (by rw [← h1]; exact hk0) hname
              · obtain ⟨item, hitem, hik⟩ := (ih rest' hrest name).mpr ⟨⟨i0, h1, hk0⟩, hdisj⟩
                exact ⟨item, List.mem_cons_of_mem _ hitem, hik⟩
          · rw [if_neg hcond]
            rw [ih rest' hrest name]
            constructor
            · rintro ⟨⟨i0, hi0, hk0⟩, hdisj⟩
              exact ⟨⟨i0, List.mem_cons_of_mem i hi0, hk0⟩, hdisj⟩
            · rintro ⟨⟨i0, hi0, hk0⟩, hdisj⟩
              rcases List.mem_cons.mp hi0 with h1 | h1
              · exact absurd (by rw [← h1]; exact hk0) hname
              · exact ⟨⟨i0, h1, hk0⟩, hdisj⟩

theorem buildOperatorItems_fields (ops hks sens : List (String × IndexedResource)) :
    ∀ (td : List IndexedResource) (l : List OperatorItem),
      buildOperatorItems ops hks sens td = .ok l →
      ∀ item ∈ l,
        (∀ o0, item.operators = some o0 →
          dictGet (integrationKey item.integration) ops = some o0) ∧
        (∀ h0, item.hooks = some h0 →
          dictGet (integrationKey item.integration) hks = some h0 ∨
          dictGet (integrationKey item.integration) sens = some h0) := by
  intro td
  induction td with
  | nil =>
    intro l h item hitem
    simp only [buildOperatorItems] at h
    have : l = [] := (Except.ok.inj h).symm
    subst this
    exact absurd hitem (List.not_mem_nil item)
  | cons i rest ih =>
    intro l h item hitem
    simp only [buildOperatorItems] at h
    cases hri : rewriteIntegrationGuides i with
    | error e => rw [hri] at h; simp [Bind.bind, Except.bind] at h
    | ok i' =>
      rw [hri] at h
      simp only [Bind.bind, Except.bind] at h
      cases hrest : buildOperatorItems ops hks sens rest with
      | error e => rw [hrest] at h; simp at h
      | ok rest' =>
        rw [hrest] at h
        simp only [] at h
        have hl := (Except.ok.inj h).symm
        subst hl
        have hinrest : item ∈ rest' → _ := fun hm => ih rest' hrest item hm
        by_cases hcond : ((dictGet (integrationKey i) ops).isSome ||
            (dictGet (integrationKey i) sens).isSome ||
            (dictGet (integrationKey i) hks).isSome) = true
        · rw [if_pos hcond] at hitem
          rcases List.mem_cons.mp hitem with h1 | h1
          · have hkey : integrationKey item.integration = integrationKey i := by
              rw [h1, buildOperatorItem_integration]
              exact rewriteIntegrationGuides_key i i' hri
            constructor
            · intro o0 ho0
              rw [h1, buildOperatorItem_operators] at ho0
              rw [hkey]
              exact ho0
            · intro h0 hh0
              rw [h1, buildOperatorItem_hooks] at hh0
              rw [hkey]
              by_cases hhs : (dictGet (integrationKey i) hks).isSome = true
              · rw [if_pos hhs] at hh0
                exact Or.inl hh0
              · rw [if_neg hhs] at hh0
                exact Or.inr hh0
          · exact hinrest h1
        · rw [if_neg hcond] at hitem
          exact hinrest hitem

theorem mem_pyInsert {α : Type} (le : α → α → Bool) (x a : α) :
    ∀ l : List α, a ∈ pyInsert le x l ↔ a = x ∨ a ∈ l := by
  intro l
  induction l with
  | nil => simp [pyInsert]
  | cons y ys ih =>
    by_cases hle : le y x = true
    · simp only [pyInsert, if_pos hle, List.mem_cons, ih]
      tauto
    · simp only [pyInsert, if_neg hle, List.mem_cons]

theorem mem_pySorted {α : Type} (le : α → α → Bool) (a : α) :
    ∀ l : List α, a ∈ pySorted le l ↔ a ∈ l := by
  intro l
  induction l with
  | nil => simp [pySorted]
  | cons x xs ih =>
    simp only [pySorted, mem_pyInsert, List.mem_cons, ih]

theorem pairwise_pyInsert {α : Type} (le : α → α → Bool)
    (htrans : ∀ a b c, le a b = true → le b c = true → le a c = true)
    (htotal : ∀ a b, le a b = true ∨ le b a = true) (x : α) :
    ∀ l : List α, l.Pairwise (fun a b => le a b = true) →
      (pyInsert le x l).Pairwise (fun a b => le a b = true) := by
  intro l
  induction l with
  | nil => intro _; simp [pyInsert]
  | cons y ys ih =>
    intro hp
    rcases List.pairwise_cons.mp hp with ⟨hy, hys⟩
    by_cases hle : le y x = true
    · rw [pyInsert, if_pos hle]
      refine List.pairwise_cons.mpr ⟨?_, ih hys⟩
      intro z hz
      rcases (mem_pyInsert le x z ys).mp hz with h1 | h1
      · rw [h1]; exact hle
      · exact hy z h1
    · rw [pyInsert, if_neg hle]
      have hxy : le x y = true := by
        rcases htotal x y with h1 | h1
        · exact h1
        · exact absurd h1 hle
      refine List.pairwise_cons.mpr ⟨?_, hp⟩
      intro z hz
      rcases List.mem_cons.mp hz with h1 | h1
      · rw [h1]; exact hxy
      · exact htrans x y z hxy (hy z h1)

theorem pairwise_pySorted {α : Type} (le : α → α → Bool)
    (htrans : ∀ a b c, le a b = true → le b c = true → le a c = true)
    (htotal : ∀ a b, le a b = true ∨ le b a = true) :
    ∀ l : List α, (pySorted le l).Pairwise (fun a b => le a b = true) := by
  intro l
  induction l with
  | nil => simp [pySorted]
  | cons x xs ih => exact pairwise_pyInsert le htrans htotal x (pySorted le xs) ih

theorem prepare_operators_data_ok (pd : List Provider) (tags : Option (List String))
    (l : List OperatorItem) (h : prepare_operators_data pd tags = .ok l) :
    ∃ td res,
      (match tags with
        | none => Except.ok (dictValues (allIntegrationsIndex pd))
        | some fs => filterByTags fs (dictValues (allIntegrationsIndex pd))) = .ok td ∧
      buildOperatorItems (allOperatorsByIntegration pd) (allHooksByIntegration pd)
        (allSensorsByIntegration pd) td = .ok res ∧
      l = pySorted operatorItemLe res := by
  cases tags with
  | none =>
    simp only [prepare_operators_data] at h
    obtain ⟨td, htd, h2⟩ := (except_bind_ok _ _ _).mp h
    obtain ⟨res, hres, h3⟩ := (except_bind_ok _ _ _).mp h2
    exact ⟨td, res, htd, hres, (Except.ok.inj h3).symm⟩
  | some fs =>
    simp only [prepare_operators_data] at h
    obtain ⟨td, htd, h2⟩ := (except_bind_ok _ _ _).mp h
    obtain ⟨res, hres, h3⟩ := (except_bind_ok _ _ _).mp h2
    exact ⟨td, res, htd, hres, (Except.ok.inj h3).symm⟩

/-- C2: an integration appears in the operators/hooks view exactly when it
passes the tag filter (non-empty intersection of its tag set with the
filter; every integration when the filter is `None`) and has at least one
operator or hook in the indexes. -/
theorem claim_C2 (pd : List Provider) (tags : Option (List String)) (l : List OperatorItem)
    (h : prepare_operators_data pd tags = .ok l) (name : String) :
    (∃ item ∈ l, integrationKey item.integration = name) ↔
      ∃ v, dictGet name (allIntegrationsIndex pd) = some v ∧
        (match tags with
         | none => True
         | some fs => ∃ ts, v.resource.tags = some ts ∧ tagsIntersect fs ts = true) ∧
        ((dictGet name (allOperatorsByIntegration pd)).isSome = true ∨
         (dictGet name (allHooksByIntegration pd)).isSome = true) := by
  obtain ⟨td, res, htd, hres, hl⟩ := prepare_operators_data_ok pd tags l h
  have hmem : (∃ item ∈ l, integrationKey item.integration = name) ↔
      (∃ item ∈ res, integrationKey item.integration = name) := by
    subst hl
    constructor
    · rintro ⟨it, hit, hk⟩; exact ⟨it, (mem_pySorted operatorItemLe it res).mp hit, hk⟩
    · rintro ⟨it, hit, hk⟩; exact ⟨it, (mem_pySorted operatorItemLe it res).mpr hit, hk⟩
  rw [hmem, buildOperatorItems_mem _ _ _ td res hres name]
  obtain ⟨hwk, hnd⟩ := prepare_resource_index_invariants pd (fun p => p.integrations)
  cases tags with
  | none =>
    have htd' : td = dictValues (allIntegrationsIndex pd) := (Except.ok.inj htd).symm
    subst htd'
    constructor
    · rintro ⟨⟨i, hi, hk⟩, hdisj⟩
      refine ⟨i, (values_key_iff _ hwk hnd name i).mp ⟨hi, hk⟩, trivial, ?_⟩
      rcases hdisj with h1 | h1 | h1
      · exact Or.inl h1
      · exact Or.inr h1
      · exact Or.inr h1
    · rintro ⟨v, hget, _, hdisj⟩
      obtain ⟨hv, hk⟩ := (values_key_iff _ hwk hnd name v).mpr hget
      refine ⟨⟨v, hv, hk⟩, ?_⟩
      rcases hdisj with h1 | h1
      · exact Or.inl h1
      · exact Or.inr (Or.inr h1)
  | some fs =>
    constructor
    · rintro ⟨⟨i, hi, hk⟩, hdisj⟩
      obtain ⟨hvals, ts, hts, hint⟩ := (filterByTags_mem fs _ td htd i).mp hi
      refine ⟨i, (values_key_iff _ hwk hnd name i).mp ⟨hvals, hk⟩, ⟨ts, hts, hint⟩, ?_⟩
      rcases hdisj with h1 | h1 | h1
      · exact Or.inl h1
      · exact Or.inr h1
      · exact Or.inr h1
    · rintro ⟨v, hget, ⟨ts, hts, hint⟩, hdisj⟩
      obtain ⟨hv, hk⟩ := (values_key_iff _ hwk hnd name v).mpr hget
      refine ⟨⟨v, (filterByTags_mem fs _ td htd v).mpr ⟨hv, ts, hts, hint⟩, hk⟩, ?_⟩
      rcases hdisj with h1 | h1
      · exact Or.inl h1
      · exact Or.inr (Or.inr h1)

/-- C2 witness: under the filter `{"aws"}` the view of `exPd` contains the
Amazon Web Services integration (its tags intersect the filter and it has
an operator). -/
theorem claim_C2_witness :
    ∃ item ∈ exOpsAws, integrationKey item.integration = "Amazon Web Services" :=
  (claim_C2 exPd (some ["aws"]) exOpsAws rfl "Amazon Web Services").mpr
    ⟨{ resource := { integrationName := "Amazon Web Services", tags := some ["aws"] },
       packageName := some "apache-airflow-providers-amazon" },
     by decide, ⟨["aws"], rfl, by decide⟩, Or.inl (by decide)⟩

/-- C8: the operators/hooks view is sorted ascending by the integration's
display name compared case-insensitively (via `lower()`). -/
theorem claim_C8 (pd : List Provider) (tags : Option (List String)) (l : List OperatorItem)
    (h : prepare_operators_data pd tags = .ok l) :
    l.Pairwise (fun a b =>
      pyLower (integrationKey a.integration) ≤ pyLower (integrationKey b.integration)) := by
  obtain ⟨td, res, htd, hres, hl⟩ := prepare_operators_data_ok pd tags l h
  subst hl
  have htrans : ∀ a b c : OperatorItem,
      operatorItemLe a b → operatorItemLe b c → operatorItemLe a c := by
    intro a b c hab hbc
    simp only [operatorItemLe, decide_eq_true_eq] at *
    exact le_trans hab hbc
  have htotal : ∀ a b : OperatorItem,
      operatorItemLe a b = true ∨ operatorItemLe b a = true := by
    intro a b
    simp only [operatorItemLe, decide_eq_true_eq]
    exact le_total _ _
  have hs := pairwise_pySorted operatorItemLe htrans htotal res
  exact hs.imp (fun hab => by simpa [operatorItemLe, decide_eq_true_eq] using hab)

/-- C8 witness: the concrete unfiltered view of `exPd` is sorted. -/
theorem claim_C8_witness :
    exOpsAll.Pairwise (fun a b =>
      pyLower (integrationKey a.integration) ≤ pyLower (integrationKey b.integration)) :=
  claim_C8 exPd none exOpsAll rfl

theorem isEmpty_false_ne_nil {α : Type} (l : List α) (h : l.isEmpty = false) : l ≠ [] := by
  cases l <;> simp_all

theorem dictGet_foldl_skip_insert {α : Type} (f : Provider → Bool) (keyf : Provider → String)
    (val : Provider → α) :
    ∀ (pd : List Provider) (d : List (String × α)) (k : String),
      (dictGet k (pd.foldl
        (fun acc p => if f p then acc else dictInsert (keyf p) (val p) acc) d)).isSome = true ↔
      ((dictGet k d).isSome = true ∨ ∃ p ∈ pd, f p = false ∧ keyf p = k) := by
  intro pd
  induction pd with
  | nil => intro d k; simp
  | cons p rest ih =>
    intro d k
    simp only [List.foldl_cons]
    rw [ih]
    have hstep : (dictGet k (if f p then d else dictInsert (keyf p) (val p) d)).isSome = true ↔
        ((f p = false ∧ keyf p = k) ∨ (dictGet k d).isSome = true) := by
      by_cases hf : f p = true
      · rw [if_pos hf]
        simp [hf]
      · rw [if_neg hf, dictGet_dictInsert]
        by_cases hk : keyf p = k
        · simp [hk, Bool.eq_false_iff.mpr hf]
        · simp [hk]
    rw [hstep]
    constructor
    · rintro ((h1 | h1) | h1)
      · exact Or.inr ⟨p, List.mem_cons_self p rest, h1⟩
      · exact Or.inl h1
      · obtain ⟨p', hp', hc⟩ := h1
        exact Or.inr ⟨p', List.mem_cons_of_mem p hp', hc⟩
    · rintro (h1 | ⟨p', hp', hc⟩)
      · exact Or.inl (Or.inr h1)
      · rcases List.mem_cons.mp hp' with h2 | h2
        · exact Or.inl (Or.inl (h2 ▸ hc))
        · exact Or.inr ⟨p', h2, hc⟩

/-- C9: aggregated records omit empty resource categories — an item of the
operators/hooks view carries an operators (resp. hooks) value only when the
corresponding index lookup is non-empty, and each simple per-category
aggregation (logging, auth backends, secrets backends, connection types,
extra links) contains a package only when that provider declares a
non-empty list for the category. -/
theorem claim_C9 :
    (∀ (pd : List Provider) (tags : Option (List String)) (l : List OperatorItem),
      prepare_operators_data pd tags = .ok l → ∀ item ∈ l,
      (∀ o, item.operators = some o →
        dictGet (integrationKey item.integration) (allOperatorsByIntegration pd) = some o) ∧
      (∀ hk, item.hooks = some hk →
        dictGet (integrationKey item.integration) (allHooksByIntegration pd) = some hk)) ∧
    (∀ (pd : List Provider) (pkg : String),
      (dictGet pkg (prepare_logging_data pd)).isSome = true →
      ∃ p ∈ pd, p.packageName = pkg ∧ p.logging ≠ []) ∧
    (∀ (pd : List Provider) (pkg : String),
      (dictGet pkg (prepare_auth_backend_data pd)).isSome = true →
      ∃ p ∈ pd, p.packageName = pkg ∧ p.authBackends ≠ []) ∧
    (∀ (pd : List Provider) (pkg : String),
      (dictGet pkg (prepare_secrets_backend_data pd)).isSome = true →
      ∃ p ∈ pd, p.packageName = pkg ∧ p.secretsBackends ≠ []) ∧
    (∀ (pd : List Provider) (pkg : String),
      (dictGet pkg (prepare_connections_data pd)).isSome = true →
      ∃ p ∈ pd, p.packageName = pkg ∧ p.connectionTypes ≠ []) ∧
    (∀ (pd : List Provider) (pkg : String),
      (dictGet pkg (prepare_extra_links_data pd)).isSome = true →
      ∃ p ∈ pd, p.packageName = pkg ∧ p.extraLinks ≠ []) := by
  refine ⟨?_, ?_, ?_, ?_, ?_, ?_⟩
  · intro pd tags l h item hitem
    obtain ⟨td, res, htd, hres, hl⟩ := prepare_operators_data_ok pd tags l h
    have hmemres : item ∈ res := by
      rw [hl] at hitem
      exact (mem_pySorted operatorItemLe item res).mp hitem
    obtain ⟨hops, hhks⟩ := buildOperatorItems_fields _ _ _ td res hres item hmemres
    refine ⟨hops, ?_⟩
    intro hk hhk
    rcases hhks hk hhk with h1 | h1
    · exact h1
    · exact h1
  · intro pd pkg h
    rcases (dictGet_foldl_skip_insert (fun p => p.logging.isEmpty)
        (fun p => p.packageName)
        (fun p => ({ name := p.name, items := p.logging } : CategoryEntry))
        pd [] pkg).mp h with h1 | ⟨p, hp, hc, hkey⟩
    · simp [dictGet] at h1
    · exact ⟨p, hp, hkey, isEmpty_false_ne_nil _ hc⟩
  · intro pd pkg h
    rcases (dictGet_foldl_skip_insert (fun p => p.authBackends.isEmpty)
        (fun p => p.packageName)
        (fun p => ({ name := p.name, items := p.authBackends } : CategoryEntry))
        pd [] pkg).mp h with h1 | ⟨p, hp, hc, hkey⟩
    · simp [dictGet] at h1
    · exact ⟨p, hp, hkey, isEmpty_false_ne_nil _ hc⟩
  · intro pd pkg h
    rcases (dictGet_foldl_skip_insert (fun p => p.secretsBackends.isEmpty)
        (fun p => p.packageName)
        (fun p => ({ name := p.name, items := p.secretsBackends } : CategoryEntry))
        pd [] pkg).mp h with h1 | ⟨p, hp, hc, hkey⟩
    · simp [dictGet] at h1
    · exact ⟨p, hp, hkey, isEmpty_false_ne_nil _ hc⟩
  · intro pd pkg h
    rcases (dictGet_foldl_skip_insert (fun p => p.connectionTypes.isEmpty)
        (fun p => p.packageName)
        (fun p => ({ name := p.name, items := p.connectionTypes } : CategoryEntry))
        pd [] pkg).mp h with h1 | ⟨p, hp, hc, hkey⟩
    · simp [dictGet] at h1
    · exact ⟨p, hp, hkey, isEmpty_false_ne_nil _ hc⟩
  · intro pd pkg h
    rcases (dictGet_foldl_skip_insert (fun p => p.extraLinks.isEmpty)
        (fun p => p.packageName)
        (fun p => ({ name := p.name, items := p.extraLinks } : CategoryEntry))
        pd [] pkg).mp h with h1 | ⟨p, hp, hc, hkey⟩
    · simp [dictGet] at h1
    · exact ⟨p, hp, hkey, isEmpty_false_ne_nil _ hc⟩

/-- C9 witness: the Amazon item of the filtered view carries exactly its
operator-index record, and the logging aggregation contains the Amazon
package because its logging list is non-empty. -/
theorem claim_C9_witness :
    dictGet (integrationKey exItemAws.integration) (allOperatorsByIntegration exPd) =
      some { resource := { integrationName := "Amazon Web Services" },
             packageName := some "apache-airflow-providers-amazon" } ∧
    ∃ p ∈ exPd, p.packageName = "apache-airflow-providers-amazon" ∧ p.logging ≠ [] :=
  ⟨(claim_C9.1 exPd (some ["aws"]) exOpsAws rfl exItemAws (by decide)).1 _ (by decide),
   claim_C9.2.1 exPd "apache-airflow-providers-amazon" (by decide)⟩
